import Mathlib

/-!
Verification of the spin-image descriptor engine
(`compute_spin_image_with_support_angle` in `src/spin_image.py`)
against its natural-language specification.

The Python floating-point arithmetic is embedded over the exact reals ℝ:
`np.sqrt` becomes `Real.sqrt`, `np.cos` becomes `Real.cos`,
`int(np.floor ·)` becomes `Int.floor` (for a finite argument `np.floor`
is already integral, so Python's truncating `int` agrees with the floor).
The two places where the Python code can raise at runtime are modelled
with `Except Unit`:
  * `bin_size = 0`: `beta / bin_size` is `±inf` or `nan`, so
    `int(np.floor(...))` on line 47 raises;
  * `|d|^2 - beta^2 < 0` (possible when the reference normal is not unit
    length): `np.sqrt` yields `nan` and `int(np.floor(alpha/bin_size))`
    on line 48 raises.
The output grid is a total function `ℤ → ℤ → ℝ`; the code only ever
writes indices inside `[0, resolution)`, so cells outside stay `0`.
-/

namespace SpinImage

/-- A 3-vector of real components, standing for one `np.ndarray` point or
normal. -/
structure Vec3 where
  x : ℝ
  y : ℝ
  z : ℝ

/-- `np.dot` on 3-vectors. -/
def dot (u v : Vec3) : ℝ := u.x * v.x + u.y * v.y + u.z * v.z

/-- Componentwise difference, `x - O` on line 42. -/
def sub (u v : Vec3) : Vec3 := ⟨u.x - v.x, u.y - v.y, u.z - v.z⟩

/-- Sum of squared components, so that `np.linalg.norm d = Real.sqrt (normSq d)`. -/
def normSq (u : Vec3) : ℝ := u.x ^ 2 + u.y ^ 2 + u.z ^ 2

/-- The spin-image accumulator `SI`.  Indices are integers because the
Python code computes them with `int(np.floor(...))`; the bounds check
keeps every write inside `[0, resolution)`. -/
def Grid : Type := ℤ → ℤ → ℝ

/-- `np.zeros((resolution, resolution))` on line 29. -/
def zeroGrid : Grid := fun _ _ => 0

/-- `SI[i, j] += w`. -/
def addAt (g : Grid) (i j : ℤ) (w : ℝ) : Grid :=
  fun i' j' => g i' j' + if i' = i ∧ j' = j then w else 0

/-- The quantity under the square root on line 43:
`np.linalg.norm(d) ** 2 - np.dot(n_A, d) ** 2`. -/
noncomputable def alphaSqOf (n_A d : Vec3) : ℝ :=
  Real.sqrt (normSq d) ^ 2 - dot n_A d ^ 2

/-- Row index of line 47: `int(np.floor(resolution / 2 - beta / bin_size))`. -/
noncomputable def binI (resolution : ℕ) (bin_size beta : ℝ) : ℤ :=
  ⌊(resolution : ℝ) / 2 - beta / bin_size⌋

/-- Column index of line 48: `int(np.floor(alpha / bin_size))`. -/
noncomputable def binJ (bin_size alpha : ℝ) : ℤ :=
  ⌊alpha / bin_size⌋

/-- Lines 42-59: what happens to a neighbour `x` once it has passed the
support-angle filter: coordinate transform, bin mapping, bounds check and
bilinear accumulation.  `Except.error` marks the two inputs on which the
Python code raises (division by a zero `bin_size`, square root of a
negative number followed by `int(nan)`). -/
noncomputable def contributeNeighbor (n_A O : Vec3) (bin_size : ℝ) (resolution : ℕ)
    (g : Grid) (x : Vec3) : Except Unit Grid :=
  if bin_size = 0 then .error ()
  else
    let d := sub x O
    if alphaSqOf n_A d < 0 then .error ()
    else
      let alpha := Real.sqrt (alphaSqOf n_A d)
      let beta := dot n_A d
      let i := binI resolution bin_size beta
      let j := binJ bin_size alpha
      if 0 ≤ i ∧ i < (resolution : ℤ) - 1 ∧ 0 ≤ j ∧ j < (resolution : ℤ) - 1 then
        let a := alpha / bin_size - j
        let b := ((resolution : ℝ) / 2 - beta / bin_size) - i
        .ok (addAt (addAt (addAt (addAt g i j ((1 - a) * (1 - b)))
              (i + 1) j (a * (1 - b)))
              i (j + 1) ((1 - a) * b))
              (i + 1) (j + 1) (a * b))
      else .ok g

/-- One iteration of the loop on lines 36-59: the support-angle filter
(lines 38-39, `continue` when `dot(n_A, n_B) < cos_threshold`) followed by
the contribution of the surviving neighbour. -/
noncomputable def processNeighbor (n_A O : Vec3) (bin_size : ℝ) (resolution : ℕ)
    (cos_threshold : ℝ) (g : Grid) (x n_B : Vec3) : Except Unit Grid :=
  if dot n_A n_B < cos_threshold then .ok g
  else contributeNeighbor n_A O bin_size resolution g x

/-- The whole loop over `zip(points, normals)`, threading the accumulator
and stopping at the first raised error. -/
noncomputable def processAll (n_A O : Vec3) (bin_size : ℝ) (resolution : ℕ)
    (cos_threshold : ℝ) : Grid → List (Vec3 × Vec3) → Except Unit Grid
  | g, [] => .ok g
  | g, (x, n_B) :: rest =>
    match processNeighbor n_A O bin_size resolution cos_threshold g x n_B with
    | .error e => .error e
    | .ok g' => processAll n_A O bin_size resolution cos_threshold g' rest

/-- `compute_spin_image_with_support_angle` (lines 6-61).  The `chunk`
argument is passed as its two parallel lists `points` and `normals`
(`zip` on line 36 pairs them up, truncating to the shorter);
`support_radius` is accepted, as in the source, and never read. -/
noncomputable def compute_spin_image_with_support_angle
    (oriented_point : Vec3 × Vec3) (points normals : List Vec3)
    (support_radius bin_size : ℝ) (resolution : ℕ) (support_angle : ℝ) :
    Except Unit Grid :=
  let O := oriented_point.1
  let n_A := oriented_point.2
  let cos_threshold := Real.cos support_angle
  processAll n_A O bin_size resolution cos_threshold zeroGrid
    (points.zip normals)

/-- Total mass of the `resolution × resolution` grid. -/
def gridSum (resolution : ℕ) (g : Grid) : ℝ :=
  ∑ i ∈ Finset.range resolution, ∑ j ∈ Finset.range resolution, g i j

/-! ### Helper lemmas -/

lemma normSq_nonneg (u : Vec3) : 0 ≤ normSq u := by
  unfold normSq; positivity

/-- Lagrange / Cauchy-Schwarz for 3-vectors. -/
lemma dot_sq_le (u v : Vec3) : dot u v ^ 2 ≤ normSq u * normSq v := by
  unfold dot normSq
  nlinarith [sq_nonneg (u.x * v.y - u.y * v.x), sq_nonneg (u.x * v.z - u.z * v.x),
    sq_nonneg (u.y * v.z - u.z * v.y)]

/-- `np.linalg.norm(d) ** 2` equals `|d|²` over the exact reals. -/
lemma alphaSqOf_eq (n_A d : Vec3) : alphaSqOf n_A d = normSq d - dot n_A d ^ 2 := by
  unfold alphaSqOf
  rw [Real.sq_sqrt (normSq_nonneg d)]

/-- For a unit reference normal the radicand of line 43 is nonnegative in
exact arithmetic. -/
lemma alphaSqOf_nonneg (n_A d : Vec3) (h : normSq n_A = 1) : 0 ≤ alphaSqOf n_A d := by
  rw [alphaSqOf_eq]
  have := dot_sq_le n_A d
  rw [h, one_mul] at this
  linarith

/-- Two unit vectors have dot product at least `-1`. -/
lemma neg_one_le_dot (u v : Vec3) (hu : normSq u = 1) (hv : normSq v = 1) :
    -1 ≤ dot u v := by
  have h := dot_sq_le u v
  rw [hu, hv, one_mul] at h
  nlinarith

/-- A neighbour that has passed the angle filter never raises when
`bin_size ≠ 0` and the reference normal is unit length. -/
lemma contributeNeighbor_ok (n_A O : Vec3) (bin_size : ℝ) (resolution : ℕ)
    (g : Grid) (x : Vec3) (hb : bin_size ≠ 0) (hn : normSq n_A = 1) :
    ∃ g', contributeNeighbor n_A O bin_size resolution g x = .ok g' := by
  unfold contributeNeighbor
  rw [if_neg hb, if_neg (not_lt.mpr (alphaSqOf_nonneg n_A (sub x O) hn))]
  dsimp only
  split
  · exact ⟨_, rfl⟩
  · exact ⟨g, rfl⟩

lemma processNeighbor_ok (n_A O : Vec3) (bin_size : ℝ) (resolution : ℕ)
    (cos_threshold : ℝ) (g : Grid) (x n_B : Vec3)
    (hb : bin_size ≠ 0) (hn : normSq n_A = 1) :
    ∃ g', processNeighbor n_A O bin_size resolution cos_threshold g x n_B = .ok g' := by
  unfold processNeighbor
  split
  · exact ⟨g, rfl⟩
  · exact contributeNeighbor_ok n_A O bin_size resolution g x hb hn

lemma processAll_ok (n_A O : Vec3) (bin_size : ℝ) (resolution : ℕ)
    (cos_threshold : ℝ) (hb : bin_size ≠ 0) (hn : normSq n_A = 1) :
    ∀ (l : List (Vec3 × Vec3)) (g : Grid),
      ∃ g', processAll n_A O bin_size resolution cos_threshold g l = .ok g'
  | [], g => ⟨g, rfl⟩
  | (x, n_B) :: rest, g => by
    obtain ⟨g1, h1⟩ := processNeighbor_ok n_A O bin_size resolution cos_threshold g x n_B hb hn
    obtain ⟨g2, h2⟩ := processAll_ok n_A O bin_size resolution cos_threshold hb hn rest g1
    exact ⟨g2, by rw [processAll, h1]; exact h2⟩

lemma sum_indicator_int (resolution : ℕ) (k : ℤ) (w : ℝ)
    (h0 : 0 ≤ k) (hk : k < (resolution : ℤ)) :
    ∑ t ∈ Finset.range resolution, (if (t : ℤ) = k then w else 0) = w := by
  have hcond : ∀ t ∈ Finset.range resolution,
      (if (t : ℤ) = k then w else 0) = (if t = k.toNat then w else 0) := by
    intro t _
    congr 1
    exact propext ⟨fun h => by omega, fun h => by omega⟩
  rw [Finset.sum_congr rfl hcond,
    Finset.sum_ite_eq' (Finset.range resolution) k.toNat fun _ => w]
  rw [if_pos (Finset.mem_range.mpr (by omega))]

/-- `SI[i, j] += w` adds exactly `w` to the total mass when `(i, j)` is in
range. -/
lemma gridSum_addAt (resolution : ℕ) (g : Grid) (i j : ℤ) (w : ℝ)
    (hi0 : 0 ≤ i) (hi : i < (resolution : ℤ)) (hj0 : 0 ≤ j) (hj : j < (resolution : ℤ)) :
    gridSum resolution (addAt g i j w) = gridSum resolution g + w := by
  unfold gridSum addAt
  simp only [Finset.sum_add_distrib]
  congr 1
  have inner : ∀ i' ∈ Finset.range resolution,
      (∑ j' ∈ Finset.range resolution,
        if (i' : ℤ) = i ∧ (j' : ℤ) = j then w else 0) =
      (if (i' : ℤ) = i then w else 0) := by
    intro i' _
    by_cases h : (i' : ℤ) = i
    · simp only [h, true_and]
      exact sum_indicator_int resolution j w hj0 hj
    · simp [h]
  rw [Finset.sum_congr rfl inner]
  exact sum_indicator_int resolution i w hi0 hi

/-- `⌊(res : ℝ) / 2⌋` is natural division by two. -/
lemma floor_resolution_half (resolution : ℕ) :
    ⌊(resolution : ℝ) / 2⌋ = ((resolution / 2 : ℕ) : ℤ) := by
  rw [← Int.natCast_floor_eq_floor (by positivity)]
  congr 1
  rw [show ((2 : ℝ)) = ((2 : ℕ) : ℝ) by norm_num, Nat.floor_div_eq_div]

/-- A neighbour whose bin indices fail the bounds check of line 50 leaves
the grid untouched and raises nothing. -/
lemma contributeNeighbor_drop (n_A O : Vec3) (bin_size : ℝ) (resolution : ℕ)
    (g : Grid) (x : Vec3)
    (hb : bin_size ≠ 0) (ha : 0 ≤ alphaSqOf n_A (sub x O))
    (hout : ¬ (0 ≤ binI resolution bin_size (dot n_A (sub x O)) ∧
        binI resolution bin_size (dot n_A (sub x O)) < (resolution : ℤ) - 1 ∧
        0 ≤ binJ bin_size (Real.sqrt (alphaSqOf n_A (sub x O))) ∧
        binJ bin_size (Real.sqrt (alphaSqOf n_A (sub x O))) < (resolution : ℤ) - 1)) :
    contributeNeighbor n_A O bin_size resolution g x = .ok g := by
  unfold contributeNeighbor
  rw [if_neg hb]
  dsimp only
  rw [if_neg (not_lt.mpr ha), if_neg hout]

/-! ### Claim theorems -/

/-- C1: for every neighbour passing the support-angle filter the target bin
indices are `i = ⌊resolution/2 - beta/bin_size⌋` and `j = ⌊alpha/bin_size⌋`;
`beta = 0` maps to row `resolution/2`, increasing `beta` maps to
non-increasing row index `i`, and column `j` grows with `alpha` starting at
column `0`. -/
theorem bin_index_mapping (resolution : ℕ) (bin_size : ℝ) (hb : 0 < bin_size) :
    (∀ beta : ℝ, binI resolution bin_size beta = ⌊(resolution : ℝ) / 2 - beta / bin_size⌋) ∧
    (∀ alpha : ℝ, binJ bin_size alpha = ⌊alpha / bin_size⌋) ∧
    binI resolution bin_size 0 = ((resolution / 2 : ℕ) : ℤ) ∧
    (∀ b1 b2 : ℝ, b1 ≤ b2 → binI resolution bin_size b2 ≤ binI resolution bin_size b1) ∧
    binJ bin_size 0 = 0 ∧
    (∀ a1 a2 : ℝ, a1 ≤ a2 → binJ bin_size a1 ≤ binJ bin_size a2) := by
  refine ⟨fun _ => rfl, fun _ => rfl, ?_, ?_, ?_, ?_⟩
  · unfold binI
    rw [zero_div, sub_zero]
    exact floor_resolution_half resolution
  · intro b1 b2 h
    unfold binI
    apply Int.floor_le_floor
    have hdiv : b1 / bin_size ≤ b2 / bin_size := by gcongr
    linarith
  · unfold binJ
    rw [zero_div, Int.floor_zero]
  · intro a1 a2 h
    unfold binJ
    apply Int.floor_le_floor
    gcongr

theorem bin_index_mapping_witness :
    (0 : ℝ) < 1 ∧ binI 4 1 0 = ((4 / 2 : ℕ) : ℤ) :=
  ⟨by norm_num, (bin_index_mapping 4 1 (by norm_num)).2.2.1⟩

/-- C2: a neighbour accepted by both the angle filter and the bounds check
receives the four bilinear weights `(1-a)(1-b)`, `a(1-b)`, `(1-a)b`, `ab`,
which sum to exactly `1`, so the neighbour contributes total mass `1` to the
grid. -/
theorem mass_conservation (n_A O : Vec3) (bin_size : ℝ) (resolution : ℕ)
    (g : Grid) (x : Vec3)
    (hb : bin_size ≠ 0) (ha : 0 ≤ alphaSqOf n_A (sub x O))
    (hin : 0 ≤ binI resolution bin_size (dot n_A (sub x O)) ∧
           binI resolution bin_size (dot n_A (sub x O)) < (resolution : ℤ) - 1 ∧
           0 ≤ binJ bin_size (Real.sqrt (alphaSqOf n_A (sub x O))) ∧
           binJ bin_size (Real.sqrt (alphaSqOf n_A (sub x O))) < (resolution : ℤ) - 1) :
    ∃ g', contributeNeighbor n_A O bin_size resolution g x = .ok g' ∧
      gridSum resolution g' = gridSum resolution g + 1 := by
  obtain ⟨hi0, hi1, hj0, hj1⟩ := hin
  unfold contributeNeighbor
  rw [if_neg hb]
  dsimp only
  rw [if_neg (not_lt.mpr ha), if_pos ⟨hi0, hi1, hj0, hj1⟩]
  refine ⟨_, rfl, ?_⟩
  rw [gridSum_addAt _ _ _ _ _ (by omega) (by omega) (by omega) (by omega),
    gridSum_addAt _ _ _ _ _ (by omega) (by omega) (by omega) (by omega),
    gridSum_addAt _ _ _ _ _ (by omega) (by omega) (by omega) (by omega),
    gridSum_addAt _ _ _ _ _ (by omega) (by omega) (by omega) (by omega)]
  ring

theorem mass_conservation_witness :
    ∃ g', contributeNeighbor ⟨0, 0, 1⟩ ⟨0, 0, 0⟩ 1 4 zeroGrid ⟨0, 0, 1⟩ = .ok g' ∧
      gridSum 4 g' = gridSum 4 zeroGrid + 1 :=
  mass_conservation ⟨0, 0, 1⟩ ⟨0, 0, 0⟩ 1 4 zeroGrid ⟨0, 0, 1⟩ (by norm_num)
    (alphaSqOf_nonneg _ _ (by norm_num [normSq]))
    ⟨by norm_num [binI, dot, sub],
     by norm_num [binI, dot, sub],
     by norm_num [binJ, alphaSqOf, normSq, dot, sub, Real.sqrt_one, Real.sqrt_zero],
     by norm_num [binJ, alphaSqOf, normSq, dot, sub, Real.sqrt_one, Real.sqrt_zero]⟩

/-- C9: `support_radius` never influences the output — two calls differing
only in `support_radius` return identical results (the builder performs no
distance filtering of its own). -/
theorem support_radius_unused (oriented_point : Vec3 × Vec3)
    (points normals : List Vec3) (r1 r2 bin_size : ℝ) (resolution : ℕ)
    (support_angle : ℝ) :
    compute_spin_image_with_support_angle oriented_point points normals
      r1 bin_size resolution support_angle =
    compute_spin_image_with_support_angle oriented_point points normals
      r2 bin_size resolution support_angle := rfl

/-- C10: a neighbour whose normal satisfies
`dot(n_A, n_B) = cos(support_angle)` exactly is accepted and evaluated for
binning, because the angle test uses a strict less-than comparison. -/
theorem boundary_angle_accepted (n_A O : Vec3) (bin_size : ℝ) (resolution : ℕ)
    (support_angle : ℝ) (g : Grid) (x n_B : Vec3)
    (h : dot n_A n_B = Real.cos support_angle) :
    processNeighbor n_A O bin_size resolution (Real.cos support_angle) g x n_B =
      contributeNeighbor n_A O bin_size resolution g x := by
  unfold processNeighbor
  rw [if_neg (by rw [h]; exact lt_irrefl _)]

theorem boundary_angle_accepted_witness :
    processNeighbor ⟨0, 0, 1⟩ ⟨0, 0, 0⟩ 1 4 (Real.cos 0) zeroGrid ⟨0, 0, 0⟩ ⟨0, 0, 1⟩ =
      contributeNeighbor ⟨0, 0, 1⟩ ⟨0, 0, 0⟩ 1 4 zeroGrid ⟨0, 0, 0⟩ :=
  boundary_angle_accepted ⟨0, 0, 1⟩ ⟨0, 0, 0⟩ 1 4 0 zeroGrid ⟨0, 0, 0⟩ ⟨0, 0, 1⟩
    (by norm_num [dot, Real.cos_zero])

/-- C5: a neighbour is skipped (grid returned unchanged) precisely when
`dot(n_A, n_B) < cos(support_angle)`, and otherwise it is evaluated for
binning; at `support_angle = π` the threshold is `-1`, so no neighbour with
unit normals is excluded.  The threshold `Real.cos support_angle` is the
value computed once per call, before the loop, in
`compute_spin_image_with_support_angle`. -/
theorem angle_filter_correct (n_A O : Vec3) (bin_size : ℝ) (resolution : ℕ)
    (support_angle : ℝ) (g : Grid) (x n_B : Vec3) :
    (dot n_A n_B < Real.cos support_angle →
      processNeighbor n_A O bin_size resolution (Real.cos support_angle) g x n_B =
        .ok g) ∧
    (¬ dot n_A n_B < Real.cos support_angle →
      processNeighbor n_A O bin_size resolution (Real.cos support_angle) g x n_B =
        contributeNeighbor n_A O bin_size resolution g x) ∧
    (normSq n_A = 1 → normSq n_B = 1 → ¬ dot n_A n_B < Real.cos Real.pi) := by
  refine ⟨fun h => ?_, fun h => ?_, fun hA hB => ?_⟩
  · unfold processNeighbor
    rw [if_pos h]
  · unfold processNeighbor
    rw [if_neg h]
  · rw [Real.cos_pi, not_lt]
    exact neg_one_le_dot n_A n_B hA hB

theorem angle_filter_correct_witness :
    ¬ dot ⟨0, 0, 1⟩ ⟨1, 0, 0⟩ < Real.cos Real.pi :=
  (angle_filter_correct ⟨0, 0, 1⟩ ⟨0, 0, 0⟩ 1 4 Real.pi zeroGrid
      ⟨0, 0, 0⟩ ⟨1, 0, 0⟩).2.2
    (by norm_num [normSq]) (by norm_num [normSq])

/-- C6: a neighbour contributes only when `0 ≤ i < resolution - 1` and
`0 ≤ j < resolution - 1`; a neighbour whose `(i, j)` falls outside that
range — including exactly at index `resolution - 1` — is silently dropped:
the grid is returned unchanged and no error is raised. -/
theorem out_of_bounds_dropped (n_A O : Vec3) (bin_size : ℝ) (resolution : ℕ)
    (g : Grid) (x : Vec3)
    (hb : bin_size ≠ 0) (ha : 0 ≤ alphaSqOf n_A (sub x O))
    (hout : ¬ (0 ≤ binI resolution bin_size (dot n_A (sub x O)) ∧
        binI resolution bin_size (dot n_A (sub x O)) < (resolution : ℤ) - 1 ∧
        0 ≤ binJ bin_size (Real.sqrt (alphaSqOf n_A (sub x O))) ∧
        binJ bin_size (Real.sqrt (alphaSqOf n_A (sub x O))) < (resolution : ℤ) - 1)) :
    contributeNeighbor n_A O bin_size resolution g x = .ok g :=
  contributeNeighbor_drop n_A O bin_size resolution g x hb ha hout

theorem out_of_bounds_dropped_witness :
    contributeNeighbor ⟨0, 0, 1⟩ ⟨0, 0, 0⟩ 1 4 zeroGrid ⟨3, 0, 0⟩ = .ok zeroGrid := by
  have h9 : Real.sqrt 9 = 3 := by
    rw [show (9 : ℝ) = 3 ^ 2 by norm_num, Real.sqrt_sq (by norm_num)]
  have hα : alphaSqOf ⟨0, 0, 1⟩ (sub ⟨3, 0, 0⟩ ⟨0, 0, 0⟩) = 9 := by
    rw [alphaSqOf_eq]
    norm_num [normSq, dot, sub]
  have hJ : binJ 1 (Real.sqrt (alphaSqOf ⟨0, 0, 1⟩ (sub ⟨3, 0, 0⟩ ⟨0, 0, 0⟩))) = 3 := by
    rw [hα, h9]
    norm_num [binJ]
  exact out_of_bounds_dropped ⟨0, 0, 1⟩ ⟨0, 0, 0⟩ 1 4 zeroGrid ⟨3, 0, 0⟩
    (by norm_num) (by rw [hα]; norm_num)
    (by rw [hJ]; intro hcon; omega)

/-- C3 counterexample: the code performs no input validation.  With
`bin_size = -1 ≤ 0`, `resolution = 1 < 2`, `support_angle = 4 ∉ [0, π]` and
mismatched list lengths (one point, zero normals), the call raises nothing
and returns the zero grid instead of failing with `InvalidConfig` /
`InvalidInput`. -/
theorem no_validation_counterexample :
    compute_spin_image_with_support_angle (⟨0, 0, 0⟩, ⟨0, 0, 1⟩) [⟨5, 5, 5⟩] []
      1 (-1) 1 4 = .ok zeroGrid := rfl

/-- C3 amended: the code validates nothing — any `bin_size ≠ 0`, any
`resolution`, any `support_angle` and any (even mismatched, `zip`-truncated)
lists are accepted, and for a unit reference normal no error is ever
raised: the call returns a grid. -/
theorem no_validation_amended (O n_A : Vec3) (points normals : List Vec3)
    (support_radius bin_size : ℝ) (resolution : ℕ) (support_angle : ℝ)
    (hb : bin_size ≠ 0) (hn : normSq n_A = 1) :
    ∃ g, compute_spin_image_with_support_angle (O, n_A) points normals
      support_radius bin_size resolution support_angle = .ok g := by
  unfold compute_spin_image_with_support_angle
  exact processAll_ok n_A O bin_size resolution _ hb hn _ _

theorem no_validation_amended_witness :
    ∃ g, compute_spin_image_with_support_angle (⟨0, 0, 0⟩, ⟨0, 0, 1⟩)
      [⟨1, 2, 3⟩] [⟨0, 1, 0⟩] 1 (-1) 1 4 = .ok g :=
  no_validation_amended ⟨0, 0, 0⟩ ⟨0, 0, 1⟩ [⟨1, 2, 3⟩] [⟨0, 1, 0⟩] 1 (-1) 1 4
    (by norm_num) (by norm_num [normSq])

/-- C4 counterexample: line 43 has no `max(0, ·)` clamp.  With the non-unit
reference normal `(2, 0, 0)` and neighbour `(1, 0, 0)` (accepted by the
angle filter since `dot = 4 ≥ cos 0 = 1`), the radicand is
`|d|² - β² = 1 - 4 = -3 < 0`: `np.sqrt` yields `nan` and
`int(np.floor(nan / bin_size))` raises, so the call errors instead of
clamping `alpha` to `0`. -/
theorem alpha_no_clamp_counterexample :
    compute_spin_image_with_support_angle (⟨0, 0, 0⟩, ⟨2, 0, 0⟩)
      [⟨1, 0, 0⟩] [⟨2, 0, 0⟩] 1 1 4 0 = .error () := by
  have hα : alphaSqOf ⟨2, 0, 0⟩ (sub ⟨1, 0, 0⟩ ⟨0, 0, 0⟩) = -3 := by
    rw [alphaSqOf_eq]
    norm_num [normSq, dot, sub]
  unfold compute_spin_image_with_support_angle
  dsimp only
  rw [show (([⟨1, 0, 0⟩] : List Vec3).zip [(⟨2, 0, 0⟩ : Vec3)]) =
      [((⟨1, 0, 0⟩ : Vec3), (⟨2, 0, 0⟩ : Vec3))] from rfl]
  unfold processAll processNeighbor
  rw [if_neg (by rw [Real.cos_zero]; norm_num [dot])]
  unfold contributeNeighbor
  rw [if_neg (by norm_num : (1 : ℝ) ≠ 0)]
  dsimp only
  rw [hα, if_pos (by norm_num : (-3 : ℝ) < 0)]

/-- C4 amended: `alpha` is computed as `sqrt(|d|² - β²)` with no clamp.  For
a unit reference normal the radicand is nonnegative in exact arithmetic, so
`alpha` is well defined and (with `bin_size ≠ 0`) the neighbour is processed
without error; nothing in the code guards the negative case. -/
theorem alpha_radicand_nonneg (n_A O x : Vec3) (bin_size : ℝ) (resolution : ℕ)
    (g : Grid) (hn : normSq n_A = 1) (hb : bin_size ≠ 0) :
    alphaSqOf n_A (sub x O) = normSq (sub x O) - dot n_A (sub x O) ^ 2 ∧
    0 ≤ alphaSqOf n_A (sub x O) ∧
    ∃ g', contributeNeighbor n_A O bin_size resolution g x = .ok g' :=
  ⟨alphaSqOf_eq _ _, alphaSqOf_nonneg _ _ hn,
    contributeNeighbor_ok n_A O bin_size resolution g x hb hn⟩

theorem alpha_radicand_nonneg_witness :
    alphaSqOf ⟨0, 0, 1⟩ (sub ⟨1, 2, 3⟩ ⟨0, 0, 0⟩) =
      normSq (sub ⟨1, 2, 3⟩ ⟨0, 0, 0⟩) - dot ⟨0, 0, 1⟩ (sub ⟨1, 2, 3⟩ ⟨0, 0, 0⟩) ^ 2 ∧
    0 ≤ alphaSqOf ⟨0, 0, 1⟩ (sub ⟨1, 2, 3⟩ ⟨0, 0, 0⟩) ∧
    ∃ g', contributeNeighbor ⟨0, 0, 1⟩ ⟨0, 0, 0⟩ 1 4 zeroGrid ⟨1, 2, 3⟩ = .ok g' :=
  alpha_radicand_nonneg ⟨0, 0, 1⟩ ⟨0, 0, 0⟩ ⟨1, 2, 3⟩ 1 4 zeroGrid
    (by norm_num [normSq]) (by norm_num)

/-- A run in which every neighbour is either skipped by the angle filter or
dropped by the bounds check leaves the accumulator untouched. -/
lemma processAll_skip_all (n_A O : Vec3) (bin_size : ℝ) (resolution : ℕ)
    (cos_threshold : ℝ) :
    ∀ (l : List (Vec3 × Vec3)) (g : Grid),
      (∀ p ∈ l, dot n_A p.2 < cos_threshold ∨
        (bin_size ≠ 0 ∧ 0 ≤ alphaSqOf n_A (sub p.1 O) ∧
          ¬ (0 ≤ binI resolution bin_size (dot n_A (sub p.1 O)) ∧
            binI resolution bin_size (dot n_A (sub p.1 O)) < (resolution : ℤ) - 1 ∧
            0 ≤ binJ bin_size (Real.sqrt (alphaSqOf n_A (sub p.1 O))) ∧
            binJ bin_size (Real.sqrt (alphaSqOf n_A (sub p.1 O))) < (resolution : ℤ) - 1))) →
      processAll n_A O bin_size resolution cos_threshold g l = .ok g
  | [], g, _ => rfl
  | (x, n_B) :: rest, g, h => by
    have hstep : processNeighbor n_A O bin_size resolution cos_threshold g x n_B =
        .ok g := by
      unfold processNeighbor
      by_cases hc : dot n_A n_B < cos_threshold
      · rw [if_pos hc]
      · rw [if_neg hc]
        rcases h (x, n_B) (List.mem_cons_self _ _) with hskip | ⟨hb, ha, hout⟩
        · exact absurd hskip hc
        · exact contributeNeighbor_drop n_A O bin_size resolution g x hb ha hout
    rw [processAll, hstep]
    exact processAll_skip_all n_A O bin_size resolution cos_threshold rest g
      fun p hp => h p (List.mem_cons_of_mem _ hp)

/-- C8: for an empty neighbour set (the hypothesis is vacuous) and likewise
for any neighbour set in which every point fails the angle filter or the
bounds check, the call raises no error and returns the all-zero
`resolution × resolution` grid. -/
theorem all_rejected_zero_grid (O n_A : Vec3) (points normals : List Vec3)
    (support_radius bin_size : ℝ) (resolution : ℕ) (support_angle : ℝ)
    (h : ∀ p ∈ points.zip normals,
      dot n_A p.2 < Real.cos support_angle ∨
      (bin_size ≠ 0 ∧ 0 ≤ alphaSqOf n_A (sub p.1 O) ∧
        ¬ (0 ≤ binI resolution bin_size (dot n_A (sub p.1 O)) ∧
          binI resolution bin_size (dot n_A (sub p.1 O)) < (resolution : ℤ) - 1 ∧
          0 ≤ binJ bin_size (Real.sqrt (alphaSqOf n_A (sub p.1 O))) ∧
          binJ bin_size (Real.sqrt (alphaSqOf n_A (sub p.1 O))) < (resolution : ℤ) - 1))) :
    compute_spin_image_with_support_angle (O, n_A) points normals
      support_radius bin_size resolution support_angle = .ok zeroGrid := by
  unfold compute_spin_image_with_support_angle
  exact processAll_skip_all n_A O bin_size resolution _ (points.zip normals)
    zeroGrid h

theorem all_rejected_zero_grid_witness :
    compute_spin_image_with_support_angle (⟨0, 0, 0⟩, ⟨0, 0, 1⟩) [] []
      1 1 4 0 = .ok zeroGrid ∧
    compute_spin_image_with_support_angle (⟨0, 0, 0⟩, ⟨0, 0, 1⟩)
      [⟨0, 0, 9⟩] [⟨0, 0, -1⟩] 1 1 4 0 = .ok zeroGrid :=
  ⟨all_rejected_zero_grid ⟨0, 0, 0⟩ ⟨0, 0, 1⟩ [] [] 1 1 4 0 (by simp),
   all_rejected_zero_grid ⟨0, 0, 0⟩ ⟨0, 0, 1⟩ [⟨0, 0, 9⟩] [⟨0, 0, -1⟩] 1 1 4 0
    (by
      intro p hp
      rw [show (([⟨0, 0, 9⟩] : List Vec3).zip [(⟨0, 0, -1⟩ : Vec3)]) =
        [((⟨0, 0, 9⟩ : Vec3), (⟨0, 0, -1⟩ : Vec3))] from rfl] at hp
      rw [List.mem_singleton] at hp
      subst hp
      left
      rw [Real.cos_zero]
      norm_num [dot])⟩

/-- C7: with `resolution = 4`, `bin_size = 1`, `support_angle = π`,
reference at the origin with normal `(0, 0, 1)` and a single neighbour at
`(0, 0, 1)` with any unit normal: `d = (0, 0, 1)`, `β = 1`, `α = 0`,
`i_f = 1`, `j_f = 0`, and bin `(1, 0)` receives weight exactly `1` while
every other bin is `0`. -/
theorem end_to_end_example (support_radius : ℝ) (n_B : Vec3) (h : normSq n_B = 1) :
    ∃ g, compute_spin_image_with_support_angle (⟨0, 0, 0⟩, ⟨0, 0, 1⟩)
        [⟨0, 0, 1⟩] [n_B] support_radius 1 4 Real.pi = .ok g ∧
      ∀ i j : ℤ, g i j = if i = 1 ∧ j = 0 then 1 else 0 := by
  have hfilter : ¬ dot ⟨0, 0, 1⟩ n_B < Real.cos Real.pi := by
    rw [Real.cos_pi, not_lt]
    exact neg_one_le_dot _ _ (by norm_num [normSq]) h
  have hαsq : alphaSqOf ⟨0, 0, 1⟩ (sub ⟨0, 0, 1⟩ ⟨0, 0, 0⟩) = 0 := by
    rw [alphaSqOf_eq]
    norm_num [normSq, dot, sub]
  have hbeta : dot ⟨0, 0, 1⟩ (sub ⟨0, 0, 1⟩ ⟨0, 0, 0⟩) = 1 := by
    norm_num [dot, sub]
  have hI : binI 4 1 1 = 1 := by norm_num [binI]
  have hJ : binJ 1 0 = 0 := by norm_num [binJ]
  obtain ⟨g, hg⟩ : ∃ g, compute_spin_image_with_support_angle
      (⟨0, 0, 0⟩, ⟨0, 0, 1⟩) [⟨0, 0, 1⟩] [n_B] support_radius 1 4 Real.pi =
      .ok g := by
    unfold compute_spin_image_with_support_angle
    exact processAll_ok _ _ _ _ _ (by norm_num) (by norm_num [normSq]) _ _
  refine ⟨g, hg, ?_⟩
  unfold compute_spin_image_with_support_angle at hg
  dsimp only at hg
  rw [show (([⟨0, 0, 1⟩] : List Vec3).zip [n_B]) =
    [((⟨0, 0, 1⟩ : Vec3), n_B)] from rfl] at hg
  unfold processAll processNeighbor at hg
  rw [if_neg hfilter] at hg
  unfold contributeNeighbor at hg
  rw [if_neg (by norm_num : ¬ (1 : ℝ) = 0)] at hg
  dsimp only at hg
  rw [hαsq, hbeta, if_neg (by norm_num : ¬ (0 : ℝ) < 0), Real.sqrt_zero,
    hI, hJ] at hg
  rw [if_pos (by norm_num)] at hg
  dsimp only at hg
  injection hg with hg'
  intro i j
  rw [← hg']
  simp only [addAt, zeroGrid]
  norm_num

theorem end_to_end_example_witness :
    ∃ g, compute_spin_image_with_support_angle (⟨0, 0, 0⟩, ⟨0, 0, 1⟩)
        [⟨0, 0, 1⟩] [⟨0, 0, 1⟩] 1 1 4 Real.pi = .ok g ∧
      ∀ i j : ℤ, g i j = if i = 1 ∧ j = 0 then 1 else 0 :=
  end_to_end_example 1 ⟨0, 0, 1⟩ (by norm_num [normSq])

end SpinImage
